import Mathlib

/-!
Shallow embedding of the flow-run utilities module (`flowRunUtils`): status
icon selection, failed-step discovery (`findFailedStep` / `findFailedStepInLoop`),
loop display-state aggregation (`findLoopsState`) and step-output resolution
(`extractStepOutput` / `getLoopChildStepOutput`).

Run-output mappings (`Record<string, StepOutput>`) are embedded as ordered
association structures (`StepRecord`), matching the ordered-entries semantics
of `Object.entries` used by the source.  Fallible lookups return `Option`.
External helpers from `@activepieces/shared` (`flowHelper.findPathToStep`,
`flowHelper.getAllSteps`, `flowHelper.isChildOf`) are modelled from the spec.
-/

/-- Action type tags; the source only discriminates on `LOOP_ON_ITEMS`,
the other constructors stand for the remaining (non-loop) action variants. -/
inductive ActionType where
  | LOOP_ON_ITEMS
  | CODE
  | PIECE
deriving DecidableEq, Repr

/-- Step-level statuses (`StepOutputStatus`). -/
inductive StepOutputStatus where
  | RUNNING
  | PAUSED
  | STOPPED
  | SUCCEEDED
  | FAILED
deriving DecidableEq, Repr

/-- Run-level statuses (`FlowRunStatus`). -/
inductive FlowRunStatus where
  | RUNNING
  | SUCCEEDED
  | STOPPED
  | FAILED
  | PAUSED
  | QUOTA_EXCEEDED
  | INTERNAL_ERROR
  | TIMEOUT
deriving DecidableEq, Repr

/-- The icon components imported from lucide-react. -/
inductive IconType where
  | Timer
  | CircleCheck
  | PauseCircleIcon
  | CircleX
  | Check
  | PauseIcon
  | X
deriving DecidableEq, Repr

/-- The `variant` union type of the status-icon records:
the source's literal strings 'default' | 'success' | 'error'. -/
inductive IconVariant where
  | default
  | success
  | error
deriving DecidableEq, Repr

/-- The record `{ variant, Icon }` returned by the status-icon functions. -/
structure StatusIcon where
  variant : IconVariant
  Icon : IconType
deriving DecidableEq, Repr

/-- `flowRunUtils.getStatusIconForStep`: switch over the five step statuses. -/
def getStatusIconForStep : StepOutputStatus → StatusIcon
  | .RUNNING => { variant := .default, Icon := .Timer }
  | .PAUSED => { variant := .default, Icon := .PauseCircleIcon }
  | .STOPPED => { variant := .success, Icon := .CircleCheck }
  | .SUCCEEDED => { variant := .success, Icon := .CircleCheck }
  | .FAILED => { variant := .error, Icon := .CircleX }

/-- `flowRunUtils.getStatusIcon`: switch over the eight run statuses. -/
def getStatusIcon : FlowRunStatus → StatusIcon
  | .RUNNING => { variant := .default, Icon := .Timer }
  | .SUCCEEDED => { variant := .success, Icon := .Check }
  | .STOPPED => { variant := .success, Icon := .Check }
  | .FAILED => { variant := .error, Icon := .X }
  | .PAUSED => { variant := .default, Icon := .PauseIcon }
  | .QUOTA_EXCEEDED => { variant := .error, Icon := .X }
  | .INTERNAL_ERROR => { variant := .error, Icon := .X }
  | .TIMEOUT => { variant := .error, Icon := .X }

/-!
Run-output data model.  A `StepOutput` mirrors the TS record's fields read by
this module: `type`, `status` and, for loop steps, `output : LoopStepResult`
whose `iterations` is an ordered sequence of per-iteration step mappings.
`StepRecord` embeds `Record<string, StepOutput>` as its ordered entry list
(the order `Object.entries` yields); `IterationList` embeds the iterations
array.
-/

mutual
inductive StepOutput where
  | mk (type : ActionType) (status : StepOutputStatus) (output : Option LoopStepResult)

inductive LoopStepResult where
  | mk (iterations : IterationList)

inductive IterationList where
  | nil
  | cons (head : StepRecord) (tail : IterationList)

inductive StepRecord where
  | nil
  | cons (name : String) (step : StepOutput) (rest : StepRecord)
end

/-- Field accessor for `StepOutput.type`. -/
def StepOutput.type : StepOutput → ActionType
  | .mk t _ _ => t

/-- Field accessor for `StepOutput.status`. -/
def StepOutput.status : StepOutput → StepOutputStatus
  | .mk _ s _ => s

/-- Field accessor for `StepOutput.output`. -/
def StepOutput.output : StepOutput → Option LoopStepResult
  | .mk _ _ o => o

/-- Field accessor for `LoopStepResult.iterations`. -/
def LoopStepResult.iterations : LoopStepResult → IterationList
  | .mk its => its

/-- Property lookup `record[name]` on the embedded object: first entry with
the given key (JS object keys are unique, so first = only). -/
def recordLookup : StepRecord → String → Option StepOutput
  | .nil, _ => none
  | .cons n s rest, nm => if n = nm then some s else recordLookup rest nm

/-- Array indexing `iterations[i]` (out of range gives `undefined`). -/
def iterGet : IterationList → Nat → Option StepRecord
  | .nil, _ => none
  | .cons it _, 0 => some it
  | .cons _ rest, n + 1 => iterGet rest n

/-- The caller-supplied `loopIndexes : Record<string, number>`, embedded as an
ordered association list; absent keys give `undefined`. -/
def lookupIdx : List (String × Nat) → String → Option Nat
  | [], _ => none
  | (k, v) :: rest, nm => if k = nm then some v else lookupIdx rest nm

/-- A flow run; `steps` is the run's step-name-to-output mapping
(`FlowRun.steps : Record<string, StepOutput>`, always present). -/
structure FlowRun where
  steps : StepRecord

/-!
`findFailedStep` / `findFailedStepInLoop`.  Both `Object.entries(...).reduce`
bodies in the source are the same accumulator function, embedded as
`stepFold`; `reduceRecord` is the fold of `stepFold` over one entry list and
`reduceIterations` is the fold over a loop's iterations
(`res ?? failedStepWithinLoop`).
-/

mutual
/-- The shared reduce body: `FAILED` entries return their own name; a
loop-typed entry with a populated `output` is recursed into only when the
accumulator `res` is nil; otherwise `res` is kept. -/
def stepFold (res : Option String) (stepName : String) : StepOutput → Option String
  | .mk ty st out =>
    if st = .FAILED then some stepName
    else
      match ty, out, res with
      | .LOOP_ON_ITEMS, some lsr, none => findFailedStepInLoop lsr
      | _, _, _ => res

/-- `Object.entries(...).reduce(stepFold, res)` over one entry list. -/
def reduceRecord (res : Option String) : StepRecord → Option String
  | .nil => res
  | .cons n s rest => reduceRecord (stepFold res n s) rest

/-- `iterations.reduce((res, iteration) => res ?? findFailed(iteration), res)`. -/
def reduceIterations (res : Option String) : IterationList → Option String
  | .nil => res
  | .cons it rest =>
    reduceIterations
      (match res with
       | some r => some r
       | none => reduceRecord none it)
      rest

/-- `findFailedStepInLoop`: fold the shared reduce body across all iterations
of a loop's result, starting from `null`. -/
def findFailedStepInLoop : LoopStepResult → Option String
  | .mk iters => reduceIterations none iters
end

/-- `findFailedStep`: fold the shared reduce body over `run.steps`. -/
def findFailedStep (run : FlowRun) : Option String :=
  reduceRecord none run.steps

/-!
Flow tree model.  A flow version is a trigger followed by a chain of actions;
a loop action owns a nested body chain (`firstLoopAction`) besides its own
successor (`nextAction`).  `FlowChain` embeds the linked `nextAction` chains.
-/

/-- A chain of actions linked by `nextAction`; `loop` nodes additionally own
their body chain (`firstLoopAction`). -/
inductive FlowChain where
  | nil
  | basic (name : String) (rest : FlowChain)
  | loop (name : String) (body : FlowChain) (rest : FlowChain)
deriving DecidableEq, Repr

/-- The flow's root trigger: a name and the first action chain. -/
structure Trigger where
  name : String
  next : FlowChain
deriving DecidableEq, Repr

/-- A flow version (only its `trigger` tree is read by this module). -/
structure FlowVersion where
  trigger : Trigger
deriving DecidableEq, Repr

/-- An element of the ancestor path returned by the Path Resolver: the fields
of the ancestor node this module reads (`name`, `type`). -/
structure AncestorNode where
  name : String
  type : ActionType
deriving DecidableEq, Repr

/-- A flattened flow node as enumerated by `flowHelper.getAllSteps`: its
`name`, `type`, and (for loop nodes) its body subtree, which the modelled
`isChildOf` inspects. -/
structure StepNode where
  name : String
  type : ActionType
  body : FlowChain
deriving DecidableEq, Repr

/-- Does a name occur anywhere in a chain (following both `nextAction` links
and loop bodies)? -/
def chainContainsName : FlowChain → String → Bool
  | .nil, _ => false
  | .basic n rest, nm => n = nm || chainContainsName rest nm
  | .loop n body rest, nm =>
    n = nm || chainContainsName body nm || chainContainsName rest nm

/-- Does a name occur anywhere in the flow tree rooted at the trigger? -/
def flowContains (t : Trigger) (nm : String) : Bool :=
  t.name = nm || chainContainsName t.next nm

/-- Modelled from the spec: the chain part of `flowHelper.findPathToStep`
(the implementation lives in `@activepieces/shared`, not in this repository).
Structural search following both the `nextAction` chain and loop bodies;
returns the root-to-target ordered list of ancestor nodes restricted to loop
actions, or `none` when the target name is nowhere in the chain. -/
def findPathChain : FlowChain → String → Option (List AncestorNode)
  | .nil, _ => none
  | .basic n rest, target =>
    if n = target then some [] else findPathChain rest target
  | .loop n body rest, target =>
    if n = target then some []
    else
      match findPathChain body target with
      | some path => some ({ name := n, type := .LOOP_ON_ITEMS } :: path)
      | none => findPathChain rest target

/-- Modelled from the spec: `flowHelper.findPathToStep({trigger, targetStepName})`
(implementation in `@activepieces/shared`).  `none` when the target exists
nowhere in the tree; otherwise the ordered list of enclosing loop ancestors
(empty for the trigger itself or a top-level step). -/
def findPathToStep (trigger : Trigger) (targetStepName : String) :
    Option (List AncestorNode) :=
  if trigger.name = targetStepName then some []
  else findPathChain trigger.next targetStepName

/-- Modelled from the spec: the chain part of `flowHelper.getAllSteps`:
every node of a chain, flattened regardless of nesting depth. -/
def allStepsChain : FlowChain → List StepNode
  | .nil => []
  | .basic n rest => { name := n, type := .CODE, body := .nil } :: allStepsChain rest
  | .loop n body rest =>
    { name := n, type := .LOOP_ON_ITEMS, body := body }
      :: (allStepsChain body ++ allStepsChain rest)

/-- Modelled from the spec: `flowHelper.getAllSteps(trigger)` (implementation
in `@activepieces/shared`): the trigger node followed by every action node of
the tree, flattened.  The trigger is tagged with a non-loop type, so the
loop filter in `findLoopsState` discards it. -/
def getAllSteps (t : Trigger) : List StepNode :=
  { name := t.name, type := .PIECE, body := .nil } :: allStepsChain t.next

/-- Modelled from the spec: `flowHelper.isChildOf(step, childStepName)`
(implementation in `@activepieces/shared`): whether the named step is a
structural descendant of the given loop node, i.e. occurs in its body
subtree. -/
def isChildOf (step : StepNode) (childStepName : String) : Bool :=
  chainContainsName step.body childStepName

/-- `Number.MAX_SAFE_INTEGER`, the sentinel iteration index. -/
def MAX_SAFE_INTEGER : Nat := 2 ^ 53 - 1

/-- The reduce body of `findLoopsState`: the JS object spread
`{...res, [step.name]: isFailedStepParent ? MAX_SAFE_INTEGER :
currentLoopsState[step.name] ?? 0}` as a pointwise function update.
`failedStep && flowHelper.isChildOf(step, failedStep)` tests JS truthiness of
the string `failedStep`, which is false for `null` and for the empty
string. -/
def loopStateUpdate (failedStep : Option String)
    (currentLoopsState : String → Option Nat)
    (res : String → Option Nat) (step : StepNode) : String → Option Nat :=
  let isFailedStepParent :=
    match failedStep with
    | some f => decide (f ≠ "") && isChildOf step f
    | none => false
  fun nm =>
    if nm = step.name then
      some (if isFailedStepParent then MAX_SAFE_INTEGER
            else (currentLoopsState step.name).getD 0)
    else res nm

/-- `findLoopsState(flowVersion, run, currentLoopsState)`.  Loop-state
mappings (`Record<string, number>`) are embedded as functions
`String → Option Nat`.  (`run.steps ? findFailedStep(run) : null` always
takes the first branch here: `steps` is always present in the embedding, and
an empty object is truthy.) -/
def findLoopsState (flowVersion : FlowVersion) (run : FlowRun)
    (currentLoopsState : String → Option Nat) : String → Option Nat :=
  let loops := (getAllSteps flowVersion.trigger).filter
    (fun s => s.type = ActionType.LOOP_ON_ITEMS)
  let failedStep := findFailedStep run
  loops.foldl (loopStateUpdate failedStep currentLoopsState) currentLoopsState

/-- The lookup key for one descent step:
`index + 1 < parents.length ? parents[index + 1].name : childName`, phrased
on the remaining ancestors after the current one. -/
def nextKey : List AncestorNode → String → String
  | q :: _, _ => q.name
  | [], childName => childName

/-- `getLoopChildStepOutput`'s `while` loop over `parents`: when the current
`childOutput` is present, has a populated `output`, and the addressed
iteration snapshot exists, descend into that snapshot at the next ancestor's
name (or at `childName` for the last ancestor); otherwise keep `childOutput`
unchanged and advance. -/
def descendParents (childOutput : Option StepOutput)
    (parents : List AncestorNode) (loopIndexes : List (String × Nat))
    (childName : String) : Option StepOutput :=
  match parents with
  | [] => childOutput
  | p :: rest =>
    let next : Option StepOutput :=
      match childOutput with
      | some c =>
        match c.output with
        | some lsr =>
          match lookupIdx loopIndexes p.name with
          | some i =>
            match iterGet lsr.iterations i with
            | some iter => recordLookup iter (nextKey rest childName)
            | none => childOutput
          | none => childOutput
        | none => childOutput
      | none => childOutput
    descendParents next rest loopIndexes childName

/-- `getLoopChildStepOutput(parents, loopIndexes, childName, runOutput)`:
`undefined` on an empty ancestor list, else the `while` descent starting from
the run's record for the first ancestor loop. -/
def getLoopChildStepOutput (parents : List AncestorNode)
    (loopIndexes : List (String × Nat)) (childName : String)
    (runOutput : StepRecord) : Option StepOutput :=
  match parents with
  | [] => none
  | p :: _ =>
    descendParents (recordLookup runOutput p.name) parents loopIndexes childName

/-- `extractStepOutput(stepName, loopIndexes, output, trigger)`: fast path on
a direct key, else Path Resolver, filter the path to loop-typed nodes, and
descend. -/
def extractStepOutput (stepName : String) (loopIndexes : List (String × Nat))
    (output : StepRecord) (trigger : Trigger) : Option StepOutput :=
  match recordLookup output stepName with
  | some stepOutput => some stepOutput
  | none =>
    match findPathToStep trigger stepName with
    | some parents =>
      getLoopChildStepOutput
        (parents.filter (fun p => p.type = ActionType.LOOP_ON_ITEMS))
        loopIndexes stepName output
    | none => none

/-!
Spec-side definitions.  These follow the words of the spec / claims, to be
compared with the source-translated functions above.
-/

/-- Follows the claim words (C1): the record reached by descending
`runSteps[L1].output.iterations[i1][L2].output.iterations[i2]...[step]`, as a
strict chain of optional lookups that yields `none` at the first missing
link. -/
def specDescendFrom : Option StepOutput → List AncestorNode →
    List (String × Nat) → String → Option StepOutput
  | co, [], _, _ => co
  | co, p :: rest, li, childName =>
    match co with
    | none => none
    | some c =>
      match c.output with
      | none => none
      | some lsr =>
        match lookupIdx li p.name with
        | none => none
        | some i =>
          match iterGet lsr.iterations i with
          | none => none
          | some iter =>
            specDescendFrom (recordLookup iter (nextKey rest childName)) rest
              li childName

/-- Every iteration snapshot addressed by the descent exists at the
caller-supplied indices: at each level the current record is present, its
`output` is populated, the enclosing loop has a caller-supplied index, and
that index is in range of the recorded iterations. -/
def snapshotsExist : Option StepOutput → List AncestorNode →
    List (String × Nat) → String → Bool
  | _, [], _, _ => true
  | co, p :: rest, li, childName =>
    match co with
    | none => false
    | some c =>
      match c.output with
      | none => false
      | some lsr =>
        match lookupIdx li p.name with
        | none => false
        | some i =>
          match iterGet lsr.iterations i with
          | none => false
          | some iter =>
            snapshotsExist (recordLookup iter (nextKey rest childName)) rest
              li childName

/-- The addressed iteration snapshot for one loop level is missing: no
populated `output`, no caller-supplied index for the loop, or the index is
out of range of the recorded iterations. -/
def missingSnapshot (c : StepOutput) (loopIndexes : List (String × Nat))
    (loopName : String) : Bool :=
  match c.output with
  | none => true
  | some lsr =>
    match lookupIdx loopIndexes loopName with
    | none => true
    | some i => (iterGet lsr.iterations i).isNone

/-- The null-coalescing combination `a ?? b` on optional step names. -/
def orE : Option String → Option String → Option String
  | some x, _ => some x
  | none, b => b

/-- Follows the claim words (C3): the last entry (in mapping order) of one
level whose own status is FAILED. -/
def lastDirectFailed : StepRecord → Option String
  | .nil => none
  | .cons n s rest =>
    orE (lastDirectFailed rest)
      (if s.status = .FAILED then some n else none)

mutual
/-- Follows the amended claim words (C3): the first loop-typed entry (in
mapping order) with a populated output whose recursive search yields a
result. -/
def firstLoopResult : StepRecord → Option String
  | .nil => none
  | .cons _ (.mk ty _ out) rest =>
    match ty, out with
    | .LOOP_ON_ITEMS, some lsr =>
      orE (amendedLoopSearch lsr) (firstLoopResult rest)
    | _, _ => firstLoopResult rest

/-- Follows the amended claim words (C3): the earliest iteration whose own
level yields a result; later iterations never replace it. -/
def amendedLoopSearch : LoopStepResult → Option String
  | .mk iters => amendedIterSearch iters

/-- Iteration-by-iteration search for `amendedLoopSearch`. -/
def amendedIterSearch : IterationList → Option String
  | .nil => none
  | .cons it rest =>
    orE (orE (lastDirectFailed it) (firstLoopResult it))
      (amendedIterSearch rest)
end

/-- Follows the amended claim words (C3): within one level, the last
directly-FAILED entry wins; otherwise the first loop entry whose recursive
search yields a result wins. -/
def amendedFindFailed (entries : StepRecord) : Option String :=
  orE (lastDirectFailed entries) (firstLoopResult entries)

mutual
/-- Follows the claim words (C3) as stated: scan entries in mapping order and
the first failing step discovered wins — a FAILED entry yields its own name,
a loop entry with populated output is searched recursively and a result found
there wins over anything later. -/
def specFirstRecord : StepRecord → Option String
  | .nil => none
  | .cons n (.mk ty st out) rest =>
    if st = .FAILED then some n
    else
      match ty, out with
      | .LOOP_ON_ITEMS, some lsr =>
        orE (specFirstLoop lsr) (specFirstRecord rest)
      | _, _ => specFirstRecord rest

/-- Claim-side first-wins search inside a loop result. -/
def specFirstLoop : LoopStepResult → Option String
  | .mk iters => specFirstIters iters

/-- Claim-side first-wins search across iterations, in order. -/
def specFirstIters : IterationList → Option String
  | .nil => none
  | .cons it rest => orE (specFirstRecord it) (specFirstIters rest)
end

mutual
/-- Some record reachable from this record — itself, or (for a loop-typed
record with populated output) inside any of its iteration snapshots,
recursively — has status FAILED. -/
def hasFailedStep : StepOutput → Bool
  | .mk ty st out =>
    decide (st = .FAILED) ||
      match ty, out with
      | .LOOP_ON_ITEMS, some lsr => hasFailedLoop lsr
      | _, _ => false

/-- Some record inside a loop result has status FAILED. -/
def hasFailedLoop : LoopStepResult → Bool
  | .mk iters => hasFailedIters iters

/-- Some record inside any of the iterations has status FAILED. -/
def hasFailedIters : IterationList → Bool
  | .nil => false
  | .cons it rest => hasFailedRecord it || hasFailedIters rest

/-- Some record reachable from this entry list has status FAILED. -/
def hasFailedRecord : StepRecord → Bool
  | .nil => false
  | .cons _ s rest => hasFailedStep s || hasFailedRecord rest
end

mutual
/-- Some record reachable strictly inside this record (through its loop
iterations) is stored under the given name with status FAILED. -/
def failedNamedStep (nm : String) : StepOutput → Bool
  | .mk ty _ out =>
    match ty, out with
    | .LOOP_ON_ITEMS, some lsr => failedNamedLoop nm lsr
    | _, _ => false

/-- Some record inside a loop result is stored under the given name with
status FAILED. -/
def failedNamedLoop (nm : String) : LoopStepResult → Bool
  | .mk iters => failedNamedIters nm iters

/-- Some record inside any of the iterations is stored under the given name
with status FAILED. -/
def failedNamedIters (nm : String) : IterationList → Bool
  | .nil => false
  | .cons it rest => failedNamedRecord nm it || failedNamedIters nm rest

/-- Some record reachable from this entry list is stored under the given
name with status FAILED. -/
def failedNamedRecord (nm : String) : StepRecord → Bool
  | .nil => false
  | .cons n s rest =>
    (decide (n = nm) && decide (s.status = .FAILED)) ||
      failedNamedStep nm s || failedNamedRecord nm rest
end

/-!
Concrete flows and runs used by witnesses and counterexamples.
-/

/-- Two-level nesting `trig; L1 { L2 { step } }`. -/
def exTrigger1 : Trigger :=
  { name := "trig", next := .loop "L1" (.loop "L2" (.basic "step" .nil) .nil) .nil }

/-- The record stored for `step` in iteration 2 of `L2`. -/
def exStepRecord : StepOutput := .mk .CODE .SUCCEEDED none

/-- `L2`'s aggregate output: three iterations, the third containing `step`. -/
def exL2Out : LoopStepResult :=
  .mk (.cons .nil (.cons .nil (.cons (.cons "step" exStepRecord .nil) .nil)))

/-- `L2`'s own run record. -/
def exL2Step : StepOutput := .mk .LOOP_ON_ITEMS .SUCCEEDED (some exL2Out)

/-- `L1`'s aggregate output: one iteration containing `L2`. -/
def exL1Out : LoopStepResult := .mk (.cons (.cons "L2" exL2Step .nil) .nil)

/-- `L1`'s own run record. -/
def exL1Step : StepOutput := .mk .LOOP_ON_ITEMS .SUCCEEDED (some exL1Out)

/-- The run mapping for the two-level flow: only `L1` is a top-level key. -/
def exRun1 : StepRecord := .cons "L1" exL1Step .nil

/-- The claim's iteration indices `{L1: 0, L2: 2}`. -/
def exIdx1 : List (String × Nat) := [("L1", 0), ("L2", 2)]

/-- Single-level nesting `trig; L { step }; after`. -/
def exTrigger2 : Trigger :=
  { name := "trig", next := .loop "L" (.basic "step" .nil) (.basic "after" .nil) }

/-- One iteration snapshot of `L`, containing `step`. -/
def exIter2 : StepRecord := .cons "step" (.mk .CODE .SUCCEEDED none) .nil

/-- `L`'s aggregate output with 3 recorded iterations. -/
def exLoopOut2 : LoopStepResult :=
  .mk (.cons exIter2 (.cons exIter2 (.cons exIter2 .nil)))

/-- `L`'s own run record. -/
def exLoopStep2 : StepOutput := .mk .LOOP_ON_ITEMS .SUCCEEDED (some exLoopOut2)

/-- The run mapping for the single-loop flow: only `L` is a top-level key. -/
def exRun2 : StepRecord := .cons "L" exLoopStep2 .nil

/-- A loop record whose single iteration contains the FAILED step `X`. -/
def exLoopA : StepOutput :=
  .mk .LOOP_ON_ITEMS .SUCCEEDED
    (some (.mk (.cons (.cons "X" (.mk .CODE .FAILED none) .nil) .nil)))

/-- Run for C3's counterexample: the loop containing the failed `X` precedes
the directly-FAILED sibling `B` in mapping order. -/
def exRun3 : FlowRun :=
  { steps := .cons "loopA" exLoopA (.cons "B" (.mk .CODE .FAILED none) .nil) }

/-- Flow with two sibling loops `B { C }` and `D { E }`. -/
def exTrigger5 : Trigger :=
  { name := "trig",
    next := .loop "B" (.basic "C" .nil) (.loop "D" (.basic "E" .nil) .nil) }

/-- Flow version wrapping `exTrigger5`. -/
def exFlowVersion5 : FlowVersion := { trigger := exTrigger5 }

/-- The loop node `B` as enumerated by `getAllSteps`. -/
def exLoopB : StepNode :=
  { name := "B", type := .LOOP_ON_ITEMS, body := .basic "C" .nil }

/-- The loop node `D` as enumerated by `getAllSteps`. -/
def exLoopD : StepNode :=
  { name := "D", type := .LOOP_ON_ITEMS, body := .basic "E" .nil }

/-- Run where top-level `A` succeeded and loop `B`'s single iteration
contains the FAILED step `C`. -/
def exRun5 : FlowRun :=
  { steps := .cons "A" (.mk .CODE .SUCCEEDED none)
      (.cons "B"
        (.mk .LOOP_ON_ITEMS .SUCCEEDED
          (some (.mk (.cons (.cons "C" (.mk .CODE .FAILED none) .nil) .nil))))
        .nil) }

/-- Caller-supplied loop display state: `D ↦ 7` and an unrelated `Z ↦ 3`. -/
def exCur5 : String → Option Nat :=
  fun nm => if nm = "D" then some 7 else if nm = "Z" then some 3 else none

/-- C8: for every step-level status the icon function returns a (total,
hence defined) result whose severity class is one of the three variants
default ('neutral'), success, error; likewise for every run-level status. -/
theorem statusIcon_variant_classes :
    (∀ s : StepOutputStatus,
      (getStatusIconForStep s).variant = IconVariant.default ∨
      (getStatusIconForStep s).variant = IconVariant.success ∨
      (getStatusIconForStep s).variant = IconVariant.error) ∧
    (∀ st : FlowRunStatus,
      (getStatusIcon st).variant = IconVariant.default ∨
      (getStatusIcon st).variant = IconVariant.success ∨
      (getStatusIcon st).variant = IconVariant.error) := by
  constructor
  · intro s
    cases s <;> simp [getStatusIconForStep]
  · intro st
    cases st <;> simp [getStatusIcon]

/-- Every node on a path returned by the modelled Path Resolver (chain part)
is loop-typed. -/
theorem findPathChain_loops (c : FlowChain) :
    ∀ (nm : String) (path : List AncestorNode), findPathChain c nm = some path →
      ∀ q ∈ path, q.type = ActionType.LOOP_ON_ITEMS := by
  induction c with
  | nil =>
    intro nm path h
    simp [findPathChain] at h
  | basic n rest ih =>
    intro nm path h
    by_cases hn : n = nm
    · simp [findPathChain, hn] at h
      subst h
      intro q hq
      simp at hq
    · simp [findPathChain, hn] at h
      exact ih nm path h
  | loop n body rest ihb ihr =>
    intro nm path h
    by_cases hn : n = nm
    · simp [findPathChain, hn] at h
      subst h
      intro q hq
      simp at hq
    · rw [findPathChain, if_neg hn] at h
      cases hbody : findPathChain body nm with
      | some path' =>
        rw [hbody] at h
        have hp : path = { name := n, type := ActionType.LOOP_ON_ITEMS } :: path' := by
          simpa using h.symm
        subst hp
        intro q hq
        cases hq with
        | head => rfl
        | tail _ hq' => exact ihb nm path' hbody q hq'
      | none =>
        rw [hbody] at h
        exact ihr nm path h

/-- Every node on a path returned by the modelled Path Resolver is
loop-typed. -/
theorem findPathToStep_loops (t : Trigger) (nm : String)
    (path : List AncestorNode) (h : findPathToStep t nm = some path) :
    ∀ q ∈ path, q.type = ActionType.LOOP_ON_ITEMS := by
  rw [findPathToStep] at h
  by_cases ht : t.name = nm
  · rw [if_pos ht] at h
    have hp : path = [] := by simpa using h.symm
    subst hp
    intro q hq
    simp at hq
  · rw [if_neg ht] at h
    exact findPathChain_loops t.next nm path h

/-- The defensive loop filter in `extractStepOutput` keeps a path of
loop-typed nodes unchanged. -/
theorem filter_loops_eq_self (path : List AncestorNode)
    (h : ∀ q ∈ path, q.type = ActionType.LOOP_ON_ITEMS) :
    path.filter (fun p => p.type = ActionType.LOOP_ON_ITEMS) = path := by
  induction path with
  | nil => rfl
  | cons p rest ih =>
    have hp := h p (by simp)
    have hrest : ∀ q ∈ rest, q.type = ActionType.LOOP_ON_ITEMS := by
      intro q hq
      exact h q (by simp [hq])
    simp [List.filter, hp, ih hrest]

/-- When every addressed iteration snapshot exists, the source's stale-value
`while` descent agrees with the strict spec descent. -/
theorem descendParents_eq_spec (parents : List AncestorNode) :
    ∀ (co : Option StepOutput) (li : List (String × Nat)) (cn : String),
      snapshotsExist co parents li cn = true →
      descendParents co parents li cn = specDescendFrom co parents li cn := by
  induction parents with
  | nil =>
    intro co li cn _
    rfl
  | cons p rest ih =>
    intro co li cn h
    cases co with
    | none => simp [snapshotsExist] at h
    | some c =>
      cases hout : c.output with
      | none => simp [snapshotsExist, hout] at h
      | some lsr =>
        cases hidx : lookupIdx li p.name with
        | none => simp [snapshotsExist, hout, hidx] at h
        | some i =>
          cases hit : iterGet lsr.iterations i with
          | none => simp [snapshotsExist, hout, hidx, hit] at h
          | some iter =>
            have h' :
                snapshotsExist (recordLookup iter (nextKey rest cn)) rest li
                  cn = true := by
              simpa [snapshotsExist, hout, hidx, hit] using h
            rw [descendParents, specDescendFrom]
            simp only [hout, hidx, hit]
            exact ih _ li cn h'

/-- C1: for a step nested under loop ancestors `L1, ..., Lk` that is not a
direct key of the run's output mapping, when every addressed iteration
snapshot exists at the caller-supplied indices, `extractStepOutput` returns
the record reached by descending
`runSteps[L1].output.iterations[i1][L2].output.iterations[i2]...[step]`. -/
theorem extractStepOutput_descends (trigger : Trigger) (stepName : String)
    (loopIndexes : List (String × Nat)) (output : StepRecord)
    (p : AncestorNode) (rest : List AncestorNode)
    (hkey : recordLookup output stepName = none)
    (hpath : findPathToStep trigger stepName = some (p :: rest))
    (hsnap : snapshotsExist (recordLookup output p.name) (p :: rest)
      loopIndexes stepName = true) :
    extractStepOutput stepName loopIndexes output trigger =
      specDescendFrom (recordLookup output p.name) (p :: rest) loopIndexes
        stepName := by
  have hloops := findPathToStep_loops trigger stepName (p :: rest) hpath
  have hfilter := filter_loops_eq_self (p :: rest) hloops
  simp only [extractStepOutput, hkey, hpath, hfilter, getLoopChildStepOutput]
  exact descendParents_eq_spec (p :: rest) (recordLookup output p.name)
    loopIndexes stepName hsnap

/-- Witness for C1 at the claim's two-level example `{L1: 0, L2: 2}`: the
result is the record stored at
`runSteps[L1].output.iterations[0][L2].output.iterations[2][step]`. -/
theorem extractStepOutput_descends_witness :
    extractStepOutput "step" exIdx1 exRun1 exTrigger1 = some exStepRecord :=
  extractStepOutput_descends exTrigger1 "step" exIdx1 exRun1
    { name := "L1", type := .LOOP_ON_ITEMS }
    [{ name := "L2", type := .LOOP_ON_ITEMS }]
    rfl rfl rfl

/-- Counterexample to C2 as stated: for the claim's own example — a step
nested in one loop `L` with 3 recorded iterations and requested index 5 —
`extractStepOutput` does not return an absent result: the stale-value `while`
descent leaves `childOutput` at the loop's own aggregate record and returns
it. -/
theorem extractStepOutput_outOfRange_cex :
    recordLookup exRun2 "step" = none ∧
    findPathToStep exTrigger2 "step" =
      some [{ name := "L", type := .LOOP_ON_ITEMS }] ∧
    extractStepOutput "step" [("L", 5)] exRun2 exTrigger2 = some exLoopStep2 ∧
    extractStepOutput "step" [("L", 5)] exRun2 exTrigger2 ≠ none := by
  have h3 : extractStepOutput "step" [("L", 5)] exRun2 exTrigger2 =
      some exLoopStep2 := rfl
  refine ⟨rfl, rfl, h3, ?_⟩
  rw [h3]
  simp

/-- C2 amended: for a step nested in exactly one loop `L` and not directly
present in the run's output mapping, `extractStepOutput` never throws (it is
total), and when the addressed iteration snapshot is missing it degrades as
follows: if the run has no record for `L` (the loop never executed) the
result is absent; but if `L`'s record exists and the caller-supplied index is
absent, out of range of the recorded iterations, or the loop record has no
populated output, the result is `L`'s own aggregate record rather than an
absent one. -/
theorem extractStepOutput_missingSnapshot (trigger : Trigger)
    (stepName : String) (loopIndexes : List (String × Nat))
    (output : StepRecord) (L : AncestorNode)
    (hkey : recordLookup output stepName = none)
    (hpath : findPathToStep trigger stepName = some [L]) :
    (recordLookup output L.name = none →
      extractStepOutput stepName loopIndexes output trigger = none) ∧
    (∀ c : StepOutput, recordLookup output L.name = some c →
      missingSnapshot c loopIndexes L.name = true →
      extractStepOutput stepName loopIndexes output trigger = some c) := by
  have hloops := findPathToStep_loops trigger stepName [L] hpath
  have hfilter := filter_loops_eq_self [L] hloops
  constructor
  · intro habs
    simp only [extractStepOutput, hkey, hpath, hfilter, getLoopChildStepOutput,
      habs, descendParents]
  · intro c hc hmiss
    simp only [extractStepOutput, hkey, hpath, hfilter, getLoopChildStepOutput,
      hc, descendParents]
    rw [missingSnapshot] at hmiss
    cases hout : c.output with
    | none => simp [hout]
    | some lsr =>
      rw [hout] at hmiss
      cases hidx : lookupIdx loopIndexes L.name with
      | none => simp [hout, hidx]
      | some i =>
        rw [hidx] at hmiss
        cases hit : iterGet lsr.iterations i with
        | none => simp [hout, hidx, hit]
        | some iter => simp [hit] at hmiss

/-- Witness for the amended C2 at the claim's example: 3 recorded
iterations, requested index 5, result is the loop's aggregate record. -/
theorem extractStepOutput_missingSnapshot_witness :
    extractStepOutput "step" [("L", 5)] exRun2 exTrigger2 =
      some exLoopStep2 :=
  (extractStepOutput_missingSnapshot exTrigger2 "step" [("L", 5)] exRun2
    { name := "L", type := .LOOP_ON_ITEMS } rfl rfl).2 exLoopStep2 rfl rfl

/-- C6: for every `stepName` that exists directly as a key of the run's
output mapping, `extractStepOutput` returns exactly that stored record, for
any `loopIndexes` and any `trigger`. -/
theorem extractStepOutput_fastPath (stepName : String)
    (loopIndexes : List (String × Nat)) (output : StepRecord)
    (trigger : Trigger) (s : StepOutput)
    (h : recordLookup output stepName = some s) :
    extractStepOutput stepName loopIndexes output trigger = some s := by
  simp only [extractStepOutput, h]

/-- Witness for C6: the loop-aggregate step `L` is itself a direct key of
the run mapping and is returned unchanged. -/
theorem extractStepOutput_fastPath_witness :
    extractStepOutput "L" [("L", 99)] exRun2 exTrigger2 = some exLoopStep2 :=
  extractStepOutput_fastPath "L" [("L", 99)] exRun2 exTrigger2 exLoopStep2 rfl

/-- A name occurring nowhere in a chain yields the chain search's not-found
signal. -/
theorem findPathChain_notFound (c : FlowChain) :
    ∀ nm : String, chainContainsName c nm = false →
      findPathChain c nm = none := by
  induction c with
  | nil =>
    intro nm _
    rfl
  | basic n rest ih =>
    intro nm h
    rw [chainContainsName] at h
    simp only [Bool.or_eq_false_iff] at h
    have hn : ¬n = nm := by simpa using h.1
    rw [findPathChain, if_neg hn]
    exact ih nm h.2
  | loop n body rest ihb ihr =>
    intro nm h
    rw [chainContainsName] at h
    simp only [Bool.or_eq_false_iff] at h
    have hn : ¬n = nm := by simpa using h.1.1
    rw [findPathChain, if_neg hn, ihb nm h.1.2]
    exact ihr nm h.2

/-- C7: for a `stepName` absent from the run's output mapping that exists
nowhere in the flow tree, the modelled Path Resolver returns its not-found
signal and `extractStepOutput` propagates it as an absent result. -/
theorem extractStepOutput_notFound (trigger : Trigger) (stepName : String)
    (loopIndexes : List (String × Nat)) (output : StepRecord)
    (hkey : recordLookup output stepName = none)
    (habs : flowContains trigger stepName = false) :
    findPathToStep trigger stepName = none ∧
    extractStepOutput stepName loopIndexes output trigger = none := by
  rw [flowContains] at habs
  simp only [Bool.or_eq_false_iff] at habs
  have hn : ¬trigger.name = stepName := by simpa using habs.1
  have hpath : findPathToStep trigger stepName = none := by
    rw [findPathToStep, if_neg hn]
    exact findPathChain_notFound trigger.next stepName habs.2
  refine ⟨hpath, ?_⟩
  simp only [extractStepOutput, hkey, hpath]

/-- Witness for C7: the name `ghost` exists nowhere in the single-loop flow. -/
theorem extractStepOutput_notFound_witness :
    findPathToStep exTrigger2 "ghost" = none ∧
    extractStepOutput "ghost" [] exRun2 exTrigger2 = none :=
  extractStepOutput_notFound exTrigger2 "ghost" [] exRun2 rfl rfl

/-- C9: for a `stepName` absent from the run's output mapping whose resolved
ancestor path contains no loop-typed node, the loop-descent helper receives
an empty ancestor list and immediately yields an absent result, and
`extractStepOutput` returns it. -/
theorem extractStepOutput_topLevelUnrecorded (trigger : Trigger)
    (stepName : String) (loopIndexes : List (String × Nat))
    (output : StepRecord) (parents : List AncestorNode)
    (hkey : recordLookup output stepName = none)
    (hpath : findPathToStep trigger stepName = some parents)
    (hnoloop : parents.filter
      (fun p => p.type = ActionType.LOOP_ON_ITEMS) = []) :
    getLoopChildStepOutput [] loopIndexes stepName output = none ∧
    extractStepOutput stepName loopIndexes output trigger = none := by
  refine ⟨rfl, ?_⟩
  simp only [extractStepOutput, hkey, hpath, hnoloop, getLoopChildStepOutput]

/-- Witness for C9: the top-level step `after` exists in the flow but has no
recorded output. -/
theorem extractStepOutput_topLevelUnrecorded_witness :
    getLoopChildStepOutput [] [] "after" exRun2 = none ∧
    extractStepOutput "after" [] exRun2 exTrigger2 = none :=
  extractStepOutput_topLevelUnrecorded exTrigger2 "after" [] exRun2 []
    rfl rfl rfl

/-- Combining with `none` on the right is the identity. -/
theorem orE_none_right (a : Option String) : orE a none = a := by
  cases a <;> rfl

/-- A present second component absorbs anything combined after it. -/
theorem orE_some_absorb (a : Option String) (x : String) (b : Option String) :
    orE a (orE (some x) b) = orE a (some x) := by
  cases a <;> rfl

/-- A present inner combination absorbs anything combined after it. -/
theorem orE_absorb_left (a : Option String) (x : String) (b : Option String) :
    orE (orE a (some x)) b = orE a (some x) := by
  cases a <;> rfl

/-- `orE` is associative. -/
theorem orE_assoc (a b c : Option String) :
    orE (orE a b) c = orE a (orE b c) := by
  cases a <;> rfl

/-- Unfolding of `stepFold` at a constructed record. -/
theorem stepFold_eq (res : Option String) (n : String) (ty : ActionType)
    (st : StepOutputStatus) (out : Option LoopStepResult) :
    stepFold res n (.mk ty st out) =
      if st = StepOutputStatus.FAILED then some n
      else
        match ty, out, res with
        | .LOOP_ON_ITEMS, some lsr, none => findFailedStepInLoop lsr
        | _, _, _ => res := by
  cases st <;> cases ty <;> cases out <;> cases res <;> rfl

/-- Unfolding of `lastDirectFailed` at a cons cell. -/
theorem lastDirectFailed_cons (n : String) (ty : ActionType)
    (st : StepOutputStatus) (out : Option LoopStepResult) (rest : StepRecord) :
    lastDirectFailed (.cons n (.mk ty st out) rest) =
      orE (lastDirectFailed rest)
        (if st = StepOutputStatus.FAILED then some n else none) := by
  cases st <;> rfl

/-- Unfolding of `firstLoopResult` at a cons cell. -/
theorem firstLoopResult_cons (n : String) (ty : ActionType)
    (st : StepOutputStatus) (out : Option LoopStepResult) (rest : StepRecord) :
    firstLoopResult (.cons n (.mk ty st out) rest) =
      match ty, out with
      | .LOOP_ON_ITEMS, some lsr =>
        orE (amendedLoopSearch lsr) (firstLoopResult rest)
      | _, _ => firstLoopResult rest := by
  cases ty <;> cases out <;> rfl

mutual
/-- The source fold over one entry list, started from any accumulator,
equals: last directly-FAILED entry, else the accumulator, else the first
loop-derived result. -/
theorem reduceRecord_amended (rec : StepRecord) :
    ∀ res : Option String,
      reduceRecord res rec =
        orE (lastDirectFailed rec) (orE res (firstLoopResult rec)) := by
  cases rec with
  | nil =>
    intro res
    cases res <;> rfl
  | cons n s rest =>
    intro res
    cases s with
    | mk ty st out =>
      have hstep : reduceRecord res (.cons n (.mk ty st out) rest) =
          reduceRecord (stepFold res n (.mk ty st out)) rest := rfl
      rw [hstep, reduceRecord_amended rest, stepFold_eq,
        lastDirectFailed_cons, firstLoopResult_cons]
      by_cases hst : st = StepOutputStatus.FAILED
      · rw [if_pos hst, if_pos hst, orE_some_absorb, orE_absorb_left]
      · rw [if_neg hst, if_neg hst, orE_none_right]
        cases ty with
        | LOOP_ON_ITEMS =>
          cases out with
          | some lsr =>
            cases res with
            | none =>
              show orE (lastDirectFailed rest)
                  (orE (findFailedStepInLoop lsr) (firstLoopResult rest)) =
                orE (lastDirectFailed rest)
                  (orE (amendedLoopSearch lsr) (firstLoopResult rest))
              rw [findFailedStepInLoop_amended lsr]
            | some r => rw [orE_some_absorb, orE_some_absorb]
          | none => cases res <;> rfl
        | CODE => cases out <;> cases res <;> rfl
        | PIECE => cases out <;> cases res <;> rfl

/-- The source fold over iterations, started from any accumulator, equals the
accumulator combined before the earliest iteration result. -/
theorem reduceIterations_amended (iters : IterationList) :
    ∀ res : Option String,
      reduceIterations res iters = orE res (amendedIterSearch iters) := by
  cases iters with
  | nil =>
    intro res
    cases res <;> rfl
  | cons it rest =>
    intro res
    have hstep : reduceIterations res (.cons it rest) =
        reduceIterations
          (match res with
           | some r => some r
           | none => reduceRecord none it) rest := rfl
    rw [hstep]
    cases res with
    | some r =>
      rw [reduceIterations_amended rest]
      rfl
    | none =>
      rw [reduceIterations_amended rest, reduceRecord_amended it]
      rfl

/-- `findFailedStepInLoop` equals the amended-claim loop search. -/
theorem findFailedStepInLoop_amended (lsr : LoopStepResult) :
    findFailedStepInLoop lsr = amendedLoopSearch lsr := by
  cases lsr with
  | mk iters =>
    have h : findFailedStepInLoop (.mk iters) =
        reduceIterations none iters := rfl
    rw [h, reduceIterations_amended iters]
    rfl
end

/-- Counterexample to C3 as stated: scanning in mapping order, the first
failing step discovered is `X` (inside the earlier sibling `loopA`), but
`findFailedStep` returns the later directly-FAILED sibling `B`: a
directly-FAILED entry overrides a result found among earlier siblings. -/
theorem findFailedStep_firstWins_cex :
    specFirstRecord exRun3.steps = some "X" ∧
    findFailedStep exRun3 = some "B" := ⟨rfl, rfl⟩

/-- C3 amended: `findFailedStep` folds the run's entries in mapping order
with this precedence: within one level the last directly-FAILED entry wins;
otherwise the first loop-typed entry (in insertion order) with populated
output whose recursive search yields a result wins (so a loop is effectively
recursed into only when no result was found among earlier siblings, and a
first loop containing a failure takes precedence over later sibling loops);
within a loop, iterations are combined in order and a later iteration's
result never replaces an earlier non-null one, the same per-level rule
applying inside each iteration. -/
theorem findFailedStep_precedence (run : FlowRun) :
    findFailedStep run = amendedFindFailed run.steps := by
  rw [findFailedStep, amendedFindFailed, reduceRecord_amended run.steps]
  rfl

/-- Unfolding of `hasFailedStep` at a constructed record. -/
theorem hasFailedStep_eq (ty : ActionType) (st : StepOutputStatus)
    (out : Option LoopStepResult) :
    hasFailedStep (.mk ty st out) =
      (decide (st = StepOutputStatus.FAILED) ||
        match ty, out with
        | ActionType.LOOP_ON_ITEMS, some lsr => hasFailedLoop lsr
        | _, _ => false) := by
  cases ty <;> cases out <;> rfl

/-- Unfolding of `failedNamedStep` at a constructed record. -/
theorem failedNamedStep_eq (nm : String) (ty : ActionType)
    (st : StepOutputStatus) (out : Option LoopStepResult) :
    failedNamedStep nm (.mk ty st out) =
      (match ty, out with
       | ActionType.LOOP_ON_ITEMS, some lsr => failedNamedLoop nm lsr
       | _, _ => false) := by
  cases ty <;> cases out <;> rfl

mutual
/-- The reduce body yields `none` exactly when the accumulator was `none` and
nothing reachable from the entry failed. -/
theorem stepFold_none_iff (s : StepOutput) :
    ∀ (res : Option String) (n : String),
      stepFold res n s = none ↔
        (res = none ∧ hasFailedStep s = false) := by
  cases s with
  | mk ty st out =>
    intro res n
    rw [stepFold_eq, hasFailedStep_eq]
    by_cases hst : st = StepOutputStatus.FAILED
    · rw [if_pos hst]
      simp [hst]
    · rw [if_neg hst]
      cases ty with
      | LOOP_ON_ITEMS =>
        cases out with
        | some lsr =>
          cases res with
          | none => simp [hst, findFailedStepInLoop_none_iff lsr]
          | some r => simp
        | none => simp [hst]
      | CODE => cases out <;> simp [hst]
      | PIECE => cases out <;> simp [hst]

/-- The fold over an entry list yields `none` exactly when the accumulator
was `none` and nothing reachable from the list failed. -/
theorem reduceRecord_none_iff (rec : StepRecord) :
    ∀ res : Option String,
      reduceRecord res rec = none ↔
        (res = none ∧ hasFailedRecord rec = false) := by
  cases rec with
  | nil =>
    intro res
    show res = none ↔ (res = none ∧ false = false)
    simp
  | cons n s rest =>
    intro res
    have hstep : reduceRecord res (.cons n s rest) =
        reduceRecord (stepFold res n s) rest := rfl
    have hrec : hasFailedRecord (.cons n s rest) =
        (hasFailedStep s || hasFailedRecord rest) := rfl
    rw [hstep, reduceRecord_none_iff rest, stepFold_none_iff s, hrec]
    simp [and_assoc]

/-- The fold over iterations yields `none` exactly when the accumulator was
`none` and nothing reachable from any iteration failed. -/
theorem reduceIterations_none_iff (iters : IterationList) :
    ∀ res : Option String,
      reduceIterations res iters = none ↔
        (res = none ∧ hasFailedIters iters = false) := by
  cases iters with
  | nil =>
    intro res
    show res = none ↔ (res = none ∧ false = false)
    simp
  | cons it rest =>
    intro res
    have hstep : reduceIterations res (.cons it rest) =
        reduceIterations
          (match res with
           | some r => some r
           | none => reduceRecord none it) rest := rfl
    have hit : hasFailedIters (.cons it rest) =
        (hasFailedRecord it || hasFailedIters rest) := rfl
    rw [hstep, reduceIterations_none_iff rest, hit]
    cases res with
    | some r => simp
    | none =>
      show (reduceRecord none it = none ∧ hasFailedIters rest = false) ↔ _
      rw [reduceRecord_none_iff it]
      simp

/-- `findFailedStepInLoop` yields `none` exactly when nothing reachable
inside the loop result failed. -/
theorem findFailedStepInLoop_none_iff (lsr : LoopStepResult) :
    findFailedStepInLoop lsr = none ↔ hasFailedLoop lsr = false := by
  cases lsr with
  | mk iters =>
    have h : findFailedStepInLoop (.mk iters) =
        reduceIterations none iters := rfl
    have h2 : hasFailedLoop (.mk iters) = hasFailedIters iters := rfl
    rw [h, h2, reduceIterations_none_iff iters]
    simp
end

mutual
/-- A name produced by the reduce body is the accumulator's, the entry's own
(FAILED) name, or names a FAILED record nested inside the entry. -/
theorem stepFold_some_named (s : StepOutput) :
    ∀ (res : Option String) (n nm : String),
      stepFold res n s = some nm →
        res = some nm ∨
          (n = nm ∧ s.status = StepOutputStatus.FAILED) ∨
          failedNamedStep nm s = true := by
  cases s with
  | mk ty st out =>
    intro res n nm h
    rw [stepFold_eq] at h
    by_cases hst : st = StepOutputStatus.FAILED
    · rw [if_pos hst] at h
      have hn : n = nm := by
        injection h
      refine Or.inr (Or.inl ⟨hn, ?_⟩)
      show st = StepOutputStatus.FAILED
      exact hst
    · rw [if_neg hst] at h
      cases ty with
      | LOOP_ON_ITEMS =>
        cases out with
        | some lsr =>
          cases res with
          | none =>
            refine Or.inr (Or.inr ?_)
            rw [failedNamedStep_eq]
            exact findFailedStepInLoop_some_named lsr nm h
          | some r => exact Or.inl h
        | none => exact Or.inl h
      | CODE => cases out <;> exact Or.inl h
      | PIECE => cases out <;> exact Or.inl h

/-- A name produced by the fold over an entry list is the accumulator's or
names a FAILED record reachable from the list. -/
theorem reduceRecord_some_named (rec : StepRecord) :
    ∀ (res : Option String) (nm : String),
      reduceRecord res rec = some nm →
        res = some nm ∨ failedNamedRecord nm rec = true := by
  cases rec with
  | nil =>
    intro res nm h
    exact Or.inl h
  | cons n s rest =>
    intro res nm h
    have hrec : failedNamedRecord nm (.cons n s rest) =
        ((decide (n = nm) && decide (s.status = StepOutputStatus.FAILED)) ||
          failedNamedStep nm s || failedNamedRecord nm rest) := rfl
    have hstep : reduceRecord res (.cons n s rest) =
        reduceRecord (stepFold res n s) rest := rfl
    rw [hstep] at h
    rcases reduceRecord_some_named rest (stepFold res n s) nm h with h' | h'
    · rcases stepFold_some_named s res n nm h' with ha | hb | hc
      · exact Or.inl ha
      · refine Or.inr ?_
        rw [hrec]
        simp [hb.1, hb.2]
      · refine Or.inr ?_
        rw [hrec]
        simp [hc]
    · refine Or.inr ?_
      rw [hrec]
      simp [h']

/-- A name produced by the fold over iterations is the accumulator's or
names a FAILED record reachable from some iteration. -/
theorem reduceIterations_some_named (iters : IterationList) :
    ∀ (res : Option String) (nm : String),
      reduceIterations res iters = some nm →
        res = some nm ∨ failedNamedIters nm iters = true := by
  cases iters with
  | nil =>
    intro res nm h
    exact Or.inl h
  | cons it rest =>
    intro res nm
    have hit : failedNamedIters nm (.cons it rest) =
        (failedNamedRecord nm it || failedNamedIters nm rest) := rfl
    have hstep : reduceIterations res (.cons it rest) =
        reduceIterations
          (match res with
           | some r => some r
           | none => reduceRecord none it) rest := rfl
    intro h
    rw [hstep] at h
    rcases reduceIterations_some_named rest _ nm h with h' | h'
    · cases res with
      | some r => exact Or.inl h'
      | none =>
        rcases reduceRecord_some_named it none nm h' with ha | ha
        · exact absurd ha (by simp)
        · refine Or.inr ?_
          rw [hit]
          simp [ha]
    · refine Or.inr ?_
      rw [hit]
      simp [h']

/-- A name produced by `findFailedStepInLoop` names a FAILED record
reachable inside the loop result. -/
theorem findFailedStepInLoop_some_named (lsr : LoopStepResult) :
    ∀ nm : String, findFailedStepInLoop lsr = some nm →
      failedNamedLoop nm lsr = true := by
  cases lsr with
  | mk iters =>
    intro nm h
    have h1 : findFailedStepInLoop (.mk iters) =
        reduceIterations none iters := rfl
    have h2 : failedNamedLoop nm (.mk iters) = failedNamedIters nm iters := rfl
    rw [h1] at h
    rw [h2]
    rcases reduceIterations_some_named iters none nm h with h' | h'
    · exact absurd h' (by simp)
    · exact h'
end

/-- C4: `findFailedStep(run)` returns null exactly when no step output
record — at the top level or inside any loop iteration snapshot at any
nesting depth — has status FAILED; and a returned non-null name always names
a reachable FAILED record. -/
theorem findFailedStep_null_characterisation (run : FlowRun) :
    (findFailedStep run = none ↔ hasFailedRecord run.steps = false) ∧
    (∀ nm : String, findFailedStep run = some nm →
      failedNamedRecord nm run.steps = true) := by
  constructor
  · rw [findFailedStep, reduceRecord_none_iff run.steps]
    simp
  · intro nm h
    rw [findFailedStep] at h
    rcases reduceRecord_some_named run.steps none nm h with h' | h'
    · exact absurd h' (by simp)
    · exact h'

/-- Witness for C4 at a concrete failing run: the iff instantiates, and the
returned name `B` names a reachable FAILED record. -/
theorem findFailedStep_null_characterisation_witness :
    (findFailedStep exRun3 = none ↔ hasFailedRecord exRun3.steps = false) ∧
    failedNamedRecord "B" exRun3.steps = true :=
  ⟨(findFailedStep_null_characterisation exRun3).1,
    (findFailedStep_null_characterisation exRun3).2 "B" rfl⟩

/-- The fold in `findLoopsState` leaves every key it never assigns — every
key that is not the name of a folded loop node — untouched. -/
theorem foldl_loopState_frame (failedStep : Option String)
    (cur : String → Option Nat) (l : List StepNode) :
    ∀ (acc : String → Option Nat) (nm : String),
      nm ∉ l.map StepNode.name →
      l.foldl (loopStateUpdate failedStep cur) acc nm = acc nm := by
  induction l with
  | nil =>
    intro acc nm _
    rfl
  | cons t rest ih =>
    intro acc nm hnm
    have h1 : nm ∉ rest.map StepNode.name := by
      intro hc
      exact hnm (by simp [hc])
    have h2 : ¬nm = t.name := by
      intro hc
      exact hnm (by simp [hc])
    rw [List.foldl_cons, ih _ nm h1]
    simp [loopStateUpdate, h2]

/-- The fold in `findLoopsState` assigns each folded loop node (under
pairwise-distinct names) its sentinel-or-kept index. -/
theorem foldl_loopState_mem (failedStep : Option String)
    (cur : String → Option Nat) (l : List StepNode) :
    ∀ (acc : String → Option Nat) (s : StepNode), s ∈ l →
      (l.map StepNode.name).Nodup →
      l.foldl (loopStateUpdate failedStep cur) acc s.name =
        some
          (if (match failedStep with
               | some f => decide (f ≠ "") && isChildOf s f
               | none => false) = true then MAX_SAFE_INTEGER
           else (cur s.name).getD 0) := by
  induction l with
  | nil =>
    intro acc s hs _
    simp at hs
  | cons t rest ih =>
    intro acc s hs hnodup
    rw [List.foldl_cons]
    rw [List.map_cons, List.nodup_cons] at hnodup
    rcases List.mem_cons.mp hs with heq | hmem
    · subst heq
      rw [foldl_loopState_frame failedStep cur rest _ s.name hnodup.1]
      simp [loopStateUpdate]
    · exact ih _ s hmem hnodup.2

/-- C5: provided the flow's loop names are pairwise distinct and the failed
step (when present) has a nonempty name, `findLoopsState` covers every
loop-type node of the flow: a loop whose body structurally contains the
failed step gets the `MAX_SAFE_INTEGER` sentinel, every other loop keeps the
caller's previously supplied index (defaulting to 0), and no key
`currentLoopsState` defines disappears from the result. -/
theorem findLoopsState_spec (flowVersion : FlowVersion) (run : FlowRun)
    (cur : String → Option Nat)
    (hnodup : ((((getAllSteps flowVersion.trigger).filter
      (fun s => s.type = ActionType.LOOP_ON_ITEMS))).map StepNode.name).Nodup)
    (hne : findFailedStep run ≠ some "") :
    (∀ s ∈ (getAllSteps flowVersion.trigger).filter
        (fun s => s.type = ActionType.LOOP_ON_ITEMS),
      findLoopsState flowVersion run cur s.name =
        some
          (match findFailedStep run with
           | some f =>
             if isChildOf s f = true then MAX_SAFE_INTEGER
             else (cur s.name).getD 0
           | none => (cur s.name).getD 0)) ∧
    (∀ (nm : String) (v : Nat), cur nm = some v →
      ∃ w : Nat, findLoopsState flowVersion run cur nm = some w) := by
  constructor
  · intro s hs
    have h := foldl_loopState_mem (findFailedStep run) cur
      ((getAllSteps flowVersion.trigger).filter
        (fun s => s.type = ActionType.LOOP_ON_ITEMS)) cur s hs hnodup
    rw [findLoopsState]
    rw [h]
    cases hfs : findFailedStep run with
    | none => simp
    | some f =>
      have hf : ¬f = "" := by
        intro hc
        exact hne (by rw [hfs, hc])
      simp [hf]
  · intro nm v hv
    by_cases hmem : nm ∈ ((getAllSteps flowVersion.trigger).filter
      (fun s => s.type = ActionType.LOOP_ON_ITEMS)).map StepNode.name
    · rcases List.mem_map.mp hmem with ⟨s, hs, hsnm⟩
      subst hsnm
      have h := foldl_loopState_mem (findFailedStep run) cur
        ((getAllSteps flowVersion.trigger).filter
          (fun s => s.type = ActionType.LOOP_ON_ITEMS)) cur s hs hnodup
      rw [findLoopsState, h]
      exact ⟨_, rfl⟩
    · rw [findLoopsState, foldl_loopState_frame (findFailedStep run) cur _ cur
        nm hmem]
      exact ⟨v, hv⟩

/-- Witness for C5 on the two-loop flow: loop `B` (ancestor of the failed
`C`) gets the sentinel, loop `D` keeps the caller's index 7. -/
theorem findLoopsState_spec_witness :
    findLoopsState exFlowVersion5 exRun5 exCur5 "B" = some MAX_SAFE_INTEGER ∧
    findLoopsState exFlowVersion5 exRun5 exCur5 "D" = some 7 :=
  ⟨(findLoopsState_spec exFlowVersion5 exRun5 exCur5 (by decide)
      (by decide)).1 exLoopB (by decide),
   (findLoopsState_spec exFlowVersion5 exRun5 exCur5 (by decide)
      (by decide)).1 exLoopD (by decide)⟩

/-- C10: `findLoopsState` never drops or rewrites an entry of
`currentLoopsState` whose key does not name a loop-type node of the flow:
such a key keeps its original value in the returned mapping. -/
theorem findLoopsState_preserves_nonloop (flowVersion : FlowVersion)
    (run : FlowRun) (cur : String → Option Nat) (nm : String)
    (hnm : nm ∉ ((getAllSteps flowVersion.trigger).filter
      (fun s => s.type = ActionType.LOOP_ON_ITEMS)).map StepNode.name) :
    findLoopsState flowVersion run cur nm = cur nm := by
  rw [findLoopsState]
  exact foldl_loopState_frame (findFailedStep run) cur _ cur nm hnm

/-- Witness for C10: the unrelated key `Z` keeps its caller-supplied value 3. -/
theorem findLoopsState_preserves_nonloop_witness :
    findLoopsState exFlowVersion5 exRun5 exCur5 "Z" = some 3 :=
  findLoopsState_preserves_nonloop exFlowVersion5 exRun5 exCur5 "Z" (by decide)
